import Mathlib

/-!
Verification development for the `tim` activity-tracking worker.

The development shallowly embeds the core of the repository: the
sequential append-log built over a flat key/value store
(`PrefixedCounterValue`, `WritePrefixedCounterValue`), the two reverse
scanners (`GetLastPrefixedCounterValue`, `GetLastPrefixedCounterSet`),
and the per-day activity aggregator (`GetActivitySummaryForDay`).

Modelling decisions, all taken from the source:
* A single stream is modelled (the string key space of one stream): the
  counter key `p:0` becomes the `counter` field, the slot keys `p:i`
  become the `slot` function of `KV`.  Stored counter strings are
  numeric in every write the repository performs, so the counter holds
  an `Option Int` (`none` = key absent).
* A slot holds either nothing (key absent), a value that does not
  decode into a log entry, or a decoded entry.  The platform read
  `TIMDB.get` with type `json` composed with `JSONToObj` surfaces both an
  absent key and an undecodable value as `null` to the scanners, which
  is the `getSlot` function below.
* Timestamps are milliseconds as `Int`; durations in hours are exact
  rationals (the claims under study never depend on float rounding).
* Each operation is a pure function `KV → result × KV`, sequencing the
  store reads and writes the source performs in order.
-/

/-- Activity categories, from `models.ts` (the revision imported by the
handlers, whose `Activity.Buffer` is `"buffer"`). -/
inductive Activity where
  | sleep
  | routines
  | meals
  | debuild
  | school
  | reading
  | buffer
deriving DecidableEq, Repr

/-- Intent tags, from `models.ts` (`NLIntent`). -/
inductive NLIntent where
  | startCommand
  | dailySummary
  | recordActivitySwitch
deriving DecidableEq, Repr

/-- The metadata block of a log entry (`NLLog.meta` in `models.ts`);
`activity` is optional, present only on activity-switch entries. -/
structure NLMeta where
  interface : String
  intent : NLIntent
  activity : Option Activity
deriving DecidableEq, Repr

/-- A log entry (`NLLog` in `models.ts`): timestamp in milliseconds,
raw request text, response text, metadata. -/
structure NLLog where
  timestamp : Int
  request : String
  response : String
  meta : NLMeta
deriving DecidableEq, Repr

/-- The state of one slot key of the backing store: absent, present but
not decodable into an `NLLog`, or holding a decoded entry. -/
inductive SlotVal where
  | missing
  | malformed
  | ent (e : NLLog)
deriving DecidableEq, Repr

/-- The key/value store restricted to one stream: the counter key
(`p:0`) and the slot keys (`p:i`, indexed here by the integer `i`). -/
structure KV where
  counter : Option Int
  slot : Int → SlotVal

/-- The store with no counter key and no slot keys. -/
def emptyKV : KV := { counter := none, slot := fun _ => SlotVal.missing }

/-- Reading a slot as the scanners do: `TIMDB.get` with type `json` followed
by `JSONToObj` yields the decoded entry, or `null` when the key is
absent or its value does not decode. -/
def getSlot (sl : Int → SlotVal) (i : Int) : Option NLLog :=
  match sl i with
  | SlotVal.missing => none
  | SlotVal.malformed => none
  | SlotVal.ent e => some e

/-- The function `PrefixedCounterValue(p, inc)` from `helpers.ts`: reads the counter
key; when absent writes `2` (if `inc`) or `1` (otherwise) and returns
`1`; when present returns the stored value, writing `value + 1` first
when `inc` is set. -/
def PrefixedCounterValue (inc : Bool) (db : KV) : Int × KV :=
  match db.counter with
  | none => (1, { db with counter := some (if inc then 2 else 1) })
  | some idx => (idx, if inc then { db with counter := some (idx + 1) } else db)

/-- The function `WritePrefixedCounterValue(p, value)` from `helpers.ts`: advances
the counter and stores the (serialised) entry at the returned slot. -/
def WritePrefixedCounterValue (v : NLLog) (db : KV) : KV :=
  let r := PrefixedCounterValue true db
  { r.2 with slot := fun j => if j = r.1 then SlotVal.ent v else r.2.slot j }

/-- The `for (; idx > 0; idx--)` loop of `GetLastPrefixedCounterValue`,
run from slot `n` down to `1`: stops with `null` at a missing (or
undecodable) slot or when the slots run out, returns the first entry
matching the filter, and walks past non-matching entries. -/
def findFrom (sl : Int → SlotVal) (p : NLLog → Bool) : Nat → Option NLLog
  | 0 => none
  | Nat.succ k =>
    match getSlot sl ((k + 1 : Nat) : Int) with
    | none => none
    | some e => if p e then some e else findFrom sl p k

/-- The function `GetLastPrefixedCounterValue(p, t, filter)` from `helpers.ts`: peeks
the counter without incrementing and scans downward from `peek - 1`. -/
def GetLastPrefixedCounterValue (p : NLLog → Bool) (db : KV) : Option NLLog × KV :=
  let r := PrefixedCounterValue false db
  (findFrom r.2.slot p (r.1 - 1).toNat, r.2)

/-- The `for (; idx > 0; idx--)` loop of `GetLastPrefixedCounterSet`,
run from slot `n` down to `1`: pushes entries while they are present,
decodable and matching, and breaks at the first missing (or
undecodable) slot or first non-matching entry. -/
def collectFrom (sl : Int → SlotVal) (p : NLLog → Bool) : Nat → List NLLog
  | 0 => []
  | Nat.succ k =>
    match getSlot sl ((k + 1 : Nat) : Int) with
    | none => []
    | some e => if p e then e :: collectFrom sl p k else []

/-- The body of `GetLastPrefixedCounterSet(p, t, filter)` from
`helpers.ts`: peeks the counter and collects downward from `peek - 1`.
The collected array itself (what the statement `return collect` of the function
yields). -/
def GetLastPrefixedCounterSetList (p : NLLog → Bool) (db : KV) : List NLLog × KV :=
  let r := PrefixedCounterValue false db
  (collectFrom r.2.slot p (r.1 - 1).toNat, r.2)

/-- The function `GetLastPrefixedCounterSet` with its declared return type
`Promise<T[] | null>`: the body always returns the collected array, so
the optional layer is always `some`. -/
def GetLastPrefixedCounterSet (p : NLLog → Bool) (db : KV) : Option (List NLLog) × KV :=
  let r := GetLastPrefixedCounterSetList p db
  (some r.1, r.2)

/-- The constant `MSInHour` from `handlers.ts`: the number of milliseconds in an hour. -/
def MSInHour : Int := 60 * 60 * 1000

/-- An activity summary, as observed through `summary.get` with the
`undefined`/falsy default of `0` applied (the only way
`GetActivitySummaryForDay` reads it back).  The key type is
`Option Activity` because the source indexes the map with
`log[i].meta.activity!`, which may be `undefined`. -/
def ActivitySummary : Type := Option Activity → ℚ

/-- The summary with no recorded time. -/
def emptySummary : ActivitySummary := fun _ => 0

/-- The map update `summary.set(k, v)`. -/
def summarySet (s : ActivitySummary) (k : Option Activity) (v : ℚ) : ActivitySummary :=
  fun k' => if k' = k then v else s k'

/-- The tally loop of `GetActivitySummaryForDay` (`handlers.ts`): walks
the collected newest-first list by index `i`; skips entries whose
intent is not `RecordActivitySwitch`; otherwise adds
`(((i == log.length - 1) ? Date.now() : log[i+1].timestamp) -
log[i].timestamp) / MSInHour` to the activity bucket of the entry. -/
def tallyAux (now : Int) : List NLLog → ActivitySummary → ActivitySummary
  | [], s => s
  | [e], s =>
    if e.meta.intent = NLIntent.recordActivitySwitch then
      summarySet s e.meta.activity
        (s e.meta.activity + ((now - e.timestamp : Int) : ℚ) / (MSInHour : ℚ))
    else s
  | e :: f :: rest, s =>
    tallyAux now (f :: rest)
      (if e.meta.intent = NLIntent.recordActivitySwitch then
        summarySet s e.meta.activity
          (s e.meta.activity + ((f.timestamp - e.timestamp : Int) : ℚ) / (MSInHour : ℚ))
      else s)

/-- The function `GetActivitySummaryForDay(user)` from `handlers.ts`, with the two
ambient instants passed explicitly: `now` is `Date.now()` and `t0` is
`new Date().setHours(0,0,0,0)` (the `searchDate`).  Collects the
entries with `timestamp > t0` via `GetLastPrefixedCounterSet` (whose
result is never `null`, so the source iterates it directly) and
tallies them.  (The source passes a fourth `addone` argument that the
three-parameter `GetLastPrefixedCounterSet` ignores.) -/
def GetActivitySummaryForDay (now t0 : Int) (db : KV) : ActivitySummary × KV :=
  let r := GetLastPrefixedCounterSetList (fun v => decide (t0 < v.timestamp)) db
  (tallyAux now r.1 emptySummary, r.2)

/-! ### Concrete day scenario (spec §8, scenario B)

Three activity-switch entries at `t = 0`, `t + 1h`, `t + 3h` with
categories A = `debuild`, B = `school`, A, queried with
`t0 = t - 1h = -3600000` and `now = t + 4h = 14400000`. -/

/-- Switch to category A (`debuild`) at `t = 0`. -/
def entA1 : NLLog :=
  { timestamp := 0, request := "working on debuild", response := "ok",
    meta := { interface := "telegram", intent := NLIntent.recordActivitySwitch,
              activity := some Activity.debuild } }

/-- Switch to category B (`school`) at `t + 1h`. -/
def entB2 : NLLog :=
  { timestamp := 3600000, request := "school work", response := "ok",
    meta := { interface := "telegram", intent := NLIntent.recordActivitySwitch,
              activity := some Activity.school } }

/-- Switch back to category A (`debuild`) at `t + 3h`. -/
def entA3 : NLLog :=
  { timestamp := 10800000, request := "back to debuild", response := "ok",
    meta := { interface := "telegram", intent := NLIntent.recordActivitySwitch,
              activity := some Activity.debuild } }

/-- The stream after the three appends: counter at `4`, slots `1..3`
holding the three entries in write order. -/
def scenarioKV : KV :=
  { counter := some 4,
    slot := fun j =>
      if j = 1 then SlotVal.ent entA1
      else if j = 2 then SlotVal.ent entB2
      else if j = 3 then SlotVal.ent entA3
      else SlotVal.missing }

/-- C1. The claim states that each retained switch entry is paired with
the *more recent* boundary (index `i - 1`, or the current instant for
`i = 0`), so that with in-window ascending timestamps every accumulated
duration is non-negative.  The code instead pairs index `i` with
`log[i + 1]` — the *older* neighbour in the newest-first array — and
reserves `Date.now()` for the *last* (oldest) index: on the §8-B
scenario the `school` bucket accumulates `-1` hours, which is negative,
where the claimed pairing would give `+2` hours. -/
theorem getActivitySummaryForDay_school_negative :
    (GetActivitySummaryForDay 14400000 (-3600000) scenarioKV).1 (some Activity.school) < 0 := by
  simp [GetActivitySummaryForDay, GetLastPrefixedCounterSetList, PrefixedCounterValue, scenarioKV,
        collectFrom, getSlot, tallyAux, summarySet, emptySummary, entA1, entB2, entA3, MSInHour]

/-- C2. On the three-entry scenario (`t, t+1h, t+3h` with categories
`debuild`, `school`, `debuild`; `t0 = t - 1h`, now `= t + 4h`) the
claim expects `debuild → 2` hours and `school → 2` hours.  The code
produces `debuild → 2` (by coincidence: `-2` from the inverted first
pairing plus `4` from pairing the oldest entry with `now`) but
`school → -1`, not `2`. -/
theorem getActivitySummaryForDay_scenarioB_eval :
    (GetActivitySummaryForDay 14400000 (-3600000) scenarioKV).1 (some Activity.debuild) = 2 ∧
    (GetActivitySummaryForDay 14400000 (-3600000) scenarioKV).1 (some Activity.school) = -1 := by
  constructor
  · simp [GetActivitySummaryForDay, GetLastPrefixedCounterSetList, PrefixedCounterValue, scenarioKV,
          collectFrom, getSlot, tallyAux, summarySet, emptySummary, entA1, entB2, entA3, MSInHour]
    norm_num
  · simp [GetActivitySummaryForDay, GetLastPrefixedCounterSetList, PrefixedCounterValue, scenarioKV,
          collectFrom, getSlot, tallyAux, summarySet, emptySummary, entA1, entB2, entA3, MSInHour]

/-! ### Sequence counter -/

/-- The counter operations never touch slot keys. -/
theorem pcv_slot_eq (inc : Bool) (db : KV) :
    (PrefixedCounterValue inc db).2.slot = db.slot := by
  obtain ⟨c, sl⟩ := db
  cases inc <;> cases c <;> rfl

/-- The value a counter read reports: the stored value, or `1` when the
key is absent. -/
theorem pcv_fst_eq (inc : Bool) (db : KV) :
    (PrefixedCounterValue inc db).1 = db.counter.getD 1 := by
  obtain ⟨c, sl⟩ := db
  cases c <;> rfl

/-- C5. `Advance` (`PrefixedCounterValue` with `inc = true`) returns the
counter value as it was before the call (reading the absent key as `1`)
and persists that value plus one (so an absent key is initialised to
`2` while `1` is returned); slot keys are untouched. -/
theorem prefixedCounterValue_advance (db : KV) :
    (PrefixedCounterValue true db).1 = db.counter.getD 1 ∧
    (PrefixedCounterValue true db).2.counter = some (db.counter.getD 1 + 1) ∧
    (PrefixedCounterValue true db).2.slot = db.slot := by
  refine ⟨pcv_fst_eq true db, ?_, pcv_slot_eq true db⟩
  obtain ⟨c, sl⟩ := db
  cases c <;> simp [PrefixedCounterValue]

/-- C6. `Peek` (`PrefixedCounterValue` with `inc = false`) initialises
an absent counter to `1` and returns `1`; on a present counter it
returns the stored value and performs no write at all; consequently a
second `Peek` returns the same value and leaves the store exactly as
the first left it. -/
theorem prefixedCounterValue_peek (db : KV) :
    (db.counter = none →
      PrefixedCounterValue false db = (1, { db with counter := some 1 })) ∧
    (∀ v : Int, db.counter = some v → PrefixedCounterValue false db = (v, db)) ∧
    PrefixedCounterValue false (PrefixedCounterValue false db).2 =
      ((PrefixedCounterValue false db).1, (PrefixedCounterValue false db).2) := by
  refine ⟨?_, ?_, ?_⟩
  · intro h; simp [PrefixedCounterValue, h]
  · intro v h; simp [PrefixedCounterValue, h]
  · cases h : db.counter <;> simp [PrefixedCounterValue, h]

/-- Witness for C6: on the empty store `Peek` returns `1` and persists
`1`; on the scenario store (counter `4`) it returns `4` and changes
nothing. -/
theorem prefixedCounterValue_peek_witness :
    PrefixedCounterValue false emptyKV = (1, { emptyKV with counter := some 1 }) ∧
    PrefixedCounterValue false scenarioKV = (4, scenarioKV) :=
  ⟨(prefixedCounterValue_peek emptyKV).1 rfl,
   (prefixedCounterValue_peek scenarioKV).2.1 4 rfl⟩

/-! ### Reverse scanner characterisations -/

/-- The descending slot sequence `[n, n-1, ..., 1]` that a reverse scan
starting at slot `n` visits. -/
def slotsDown : Nat → List Nat
  | 0 => []
  | Nat.succ n => (n + 1) :: slotsDown n

/-- The contiguous present run: the decoded entries of the visited
slots, newest first, up to (excluding) the first absent or undecodable
slot. -/
def presentRun (sl : Int → SlotVal) (n : Nat) : List NLLog :=
  (((slotsDown n).map (fun i => getSlot sl (i : Int))).takeWhile Option.isSome).reduceOption

/-- The contiguous present-and-matching run: the decoded entries of the
visited slots, newest first, up to (excluding) the first slot that is
absent, undecodable, or whose entry fails the predicate. -/
def presentMatchingRun (sl : Int → SlotVal) (p : NLLog → Bool) (n : Nat) : List NLLog :=
  (((slotsDown n).map (fun i => getSlot sl (i : Int))).takeWhile
    (fun o => (o.map p).getD false)).reduceOption

/-- The collect loop is the take-while of the decoded slot sequence. -/
theorem collectFrom_eq_presentMatchingRun (sl : Int → SlotVal) (p : NLLog → Bool) (n : Nat) :
    collectFrom sl p n = presentMatchingRun sl p n := by
  induction n with
  | zero => rfl
  | succ k ih =>
    cases h : getSlot sl ((k : Int) + 1) with
    | none => simp [collectFrom, presentMatchingRun, slotsDown, h]
    | some e =>
      cases hp : p e
      · simp [collectFrom, presentMatchingRun, slotsDown, h, hp]
      · simp [collectFrom, presentMatchingRun, slotsDown, h, hp, ih]

/-- The find loop is `find?` over the contiguous present run. -/
theorem findFrom_eq_find_presentRun (sl : Int → SlotVal) (p : NLLog → Bool) (n : Nat) :
    findFrom sl p n = (presentRun sl n).find? p := by
  induction n with
  | zero => rfl
  | succ k ih =>
    cases h : getSlot sl ((k : Int) + 1) with
    | none => simp [findFrom, presentRun, slotsDown, h]
    | some e =>
      cases hp : p e
      · simp [findFrom, presentRun, slotsDown, h, hp, List.find?, ih]
      · simp [findFrom, presentRun, slotsDown, h, hp, List.find?]

/-- C3. `CollectLast` walks slots downward from `Peek - 1` and returns
exactly the take-while of the newest-first decoded slot sequence: the
maximal consecutive run of slots, starting from the newest, whose
entries are present, decodable and satisfy the predicate; the walk
stops at the first missing slot or non-matching entry, that boundary is
excluded, and a non-matching newest entry yields the empty result. -/
theorem getLastPrefixedCounterSet_collect_while (p : NLLog → Bool) (db : KV) :
    (GetLastPrefixedCounterSetList p db).1 =
      presentMatchingRun db.slot p ((PrefixedCounterValue false db).1 - 1).toNat := by
  simp [GetLastPrefixedCounterSetList, pcv_slot_eq, collectFrom_eq_presentMatchingRun]

/-- C4. `FindLast` walks slots downward from `Peek - 1` and returns the
first match of the predicate over the contiguous present run,
continuing past non-matching entries: the highest-slot matching entry,
or `none` when a missing slot is reached before any match or when
slot `1` is passed without a match. -/
theorem getLastPrefixedCounterValue_find_first (p : NLLog → Bool) (db : KV) :
    (GetLastPrefixedCounterValue p db).1 =
      (presentRun db.slot ((PrefixedCounterValue false db).1 - 1).toNat).find? p := by
  simp [GetLastPrefixedCounterValue, pcv_slot_eq, findFrom_eq_find_presentRun]

/-! ### Sequential appends -/

/-- A run of `N` sequential `Append` calls: a fold of `WritePrefixedCounterValue`
over the entry list, in write order. -/
def appendAll (es : List NLLog) (db : KV) : KV :=
  es.foldl (fun d e => WritePrefixedCounterValue e d) db

/-- One append on a store with a present counter: the counter advances
and the entry lands at the slot named by the old counter value. -/
theorem write_counter_eq (e : NLLog) (db : KV) (m : Int) (h : db.counter = some m) :
    (WritePrefixedCounterValue e db).counter = some (m + 1) := by
  simp [WritePrefixedCounterValue, PrefixedCounterValue, h]

/-- The slot function after one append on a store with a present
counter. -/
theorem write_slot_eq (e : NLLog) (db : KV) (m : Int) (h : db.counter = some m) :
    (WritePrefixedCounterValue e db).slot =
      fun j => if j = m then SlotVal.ent e else db.slot j := by
  funext j
  simp [WritePrefixedCounterValue, PrefixedCounterValue, h]

/-- Invariant of sequential appends over a store whose counter is
present: the counter advances by the number of entries, slots below the
base slot are untouched, and the fresh slots hold the appended entries
in write order. -/
theorem appendAll_inv (es : List NLLog) :
    ∀ (db : KV) (m : Int), db.counter = some m →
      (appendAll es db).counter = some (m + es.length) ∧
      (∀ j : Int, j < m → (appendAll es db).slot j = db.slot j) ∧
      (∀ i : Nat, ∀ hi : i < es.length,
        (appendAll es db).slot (m + i) = SlotVal.ent (es.get ⟨i, hi⟩)) := by
  induction es with
  | nil =>
    intro db m h
    refine ⟨by simpa [appendAll] using h, fun j _ => rfl, fun i hi => absurd hi (by simp)⟩
  | cons e rest ih =>
    intro db m h
    have hstep : appendAll (e :: rest) db = appendAll rest (WritePrefixedCounterValue e db) := rfl
    obtain ⟨h1, h2, h3⟩ :=
      ih (WritePrefixedCounterValue e db) (m + 1) (write_counter_eq e db m h)
    refine ⟨?_, ?_, ?_⟩
    · rw [hstep, h1]
      congr 1
      simp [List.length_cons]
      ring
    · intro j hj
      rw [hstep, h2 j (by omega), write_slot_eq e db m h]
      simp [show j ≠ m from by omega]
    · intro i hi
      cases i with
      | zero =>
        have := h2 m (by omega)
        rw [hstep]
        simpa [write_slot_eq e db m h] using this
      | succ i =>
        have hi' : i < rest.length := by simpa using hi
        have := h3 i hi'
        rw [hstep]
        have harith : m + ((i + 1 : Nat) : Int) = m + 1 + (i : Int) := by push_cast; ring
        rw [harith]
        simpa using this

/-- C7. After `N` sequential appends on an initially empty stream,
`Peek` reports `N + 1` and each slot `1 .. N` holds the corresponding
appended entry, in write order. -/
theorem append_then_peek (es : List NLLog) :
    (PrefixedCounterValue false (appendAll es emptyKV)).1 = (es.length : Int) + 1 ∧
    ∀ i : Nat, ∀ hi : i < es.length,
      (appendAll es emptyKV).slot ((i : Int) + 1) = SlotVal.ent (es.get ⟨i, hi⟩) := by
  cases es with
  | nil =>
    exact ⟨by simp [appendAll, emptyKV, PrefixedCounterValue], fun i hi => absurd hi (by simp)⟩
  | cons e rest =>
    have hW : (WritePrefixedCounterValue e emptyKV).counter = some 2 := rfl
    have hWslot : (WritePrefixedCounterValue e emptyKV).slot =
        fun j => if j = 1 then SlotVal.ent e else SlotVal.missing := by
      funext j
      simp [WritePrefixedCounterValue, PrefixedCounterValue, emptyKV]
    have hstep : appendAll (e :: rest) emptyKV =
        appendAll rest (WritePrefixedCounterValue e emptyKV) := rfl
    obtain ⟨h1, h2, h3⟩ := appendAll_inv rest (WritePrefixedCounterValue e emptyKV) 2 hW
    constructor
    · rw [pcv_fst_eq, hstep, h1]
      simp [List.length_cons]
      ring
    · intro i hi
      cases i with
      | zero =>
        have := h2 1 (by omega)
        rw [hstep]
        simpa [hWslot] using this
      | succ i =>
        have hi' : i < rest.length := by simpa using hi
        have := h3 i hi'
        have harith : ((i + 1 : Nat) : Int) + 1 = 2 + (i : Int) := by push_cast; ring
        rw [hstep, harith]
        simpa using this

/-- Witness for C7: two appends on the empty stream make `Peek` report
`3`, with slot `1` holding the first entry and slot `2` the second. -/
theorem append_then_peek_witness :
    (PrefixedCounterValue false (appendAll [entA1, entB2] emptyKV)).1 = 3 ∧
    (appendAll [entA1, entB2] emptyKV).slot 1 = SlotVal.ent entA1 ∧
    (appendAll [entA1, entB2] emptyKV).slot 2 = SlotVal.ent entB2 := by
  refine ⟨?_, ?_, ?_⟩
  · have := (append_then_peek [entA1, entB2]).1
    simpa using this
  · have := (append_then_peek [entA1, entB2]).2 0 (by simp)
    simpa using this
  · have := (append_then_peek [entA1, entB2]).2 1 (by simp)
    simpa using this

/-! ### Malformed slot values -/

/-- The store with every undecodable slot value replaced by an absent
one. -/
def demalform (db : KV) : KV :=
  { db with
    slot := fun j =>
      match db.slot j with
      | SlotVal.malformed => SlotVal.missing
      | v => v }

/-- Reading a slot cannot tell an undecodable value from an absent
one. -/
theorem getSlot_demalform (db : KV) (j : Int) :
    getSlot (demalform db).slot j = getSlot db.slot j := by
  cases h : db.slot j <;> simp [demalform, getSlot, h]

/-- The find loop only sees slots through `getSlot`. -/
theorem findFrom_congr (sl sl' : Int → SlotVal) (p : NLLog → Bool)
    (h : ∀ j, getSlot sl j = getSlot sl' j) (n : Nat) :
    findFrom sl p n = findFrom sl' p n := by
  induction n with
  | zero => rfl
  | succ k ih => simp [findFrom, h, ih]

/-- The collect loop only sees slots through `getSlot`. -/
theorem collectFrom_congr (sl sl' : Int → SlotVal) (p : NLLog → Bool)
    (h : ∀ j, getSlot sl j = getSlot sl' j) (n : Nat) :
    collectFrom sl p n = collectFrom sl' p n := by
  induction n with
  | zero => rfl
  | succ k ih => simp [collectFrom, h, ih]

/-- C8. During a reverse scan, both in find mode and in collect mode, a
stored slot value that fails to decode into an entry is treated
identically to a missing slot: reading it yields `null`, so the scan
stops there and returns its result so far, and (the scanners being
total functions into `Option`/`List`) no decode error reaches the
caller.  Replacing every undecodable slot by an absent slot changes
the result of neither scanner. -/
theorem scanners_treat_malformed_as_missing (p : NLLog → Bool) (db : KV) :
    (∀ j : Int, db.slot j = SlotVal.malformed → getSlot db.slot j = none) ∧
    (GetLastPrefixedCounterValue p db).1 = (GetLastPrefixedCounterValue p (demalform db)).1 ∧
    (GetLastPrefixedCounterSet p db).1 = (GetLastPrefixedCounterSet p (demalform db)).1 := by
  refine ⟨fun j hj => by simp [getSlot, hj], ?_, ?_⟩
  · have hc : (demalform db).counter = db.counter := rfl
    simp only [GetLastPrefixedCounterValue, pcv_slot_eq, pcv_fst_eq, hc]
    exact findFrom_congr db.slot (demalform db).slot p
      (fun j => (getSlot_demalform db j).symm) _
  · have hc : (demalform db).counter = db.counter := rfl
    simp only [GetLastPrefixedCounterSet, GetLastPrefixedCounterSetList,
      pcv_slot_eq, pcv_fst_eq, hc, Option.some.injEq]
    exact collectFrom_congr db.slot (demalform db).slot p
      (fun j => (getSlot_demalform db j).symm) _

/-- A store with an undecodable value at slot `1` below a good entry at
slot `2`. -/
def malformedKV : KV :=
  { counter := some 3,
    slot := fun j =>
      if j = 1 then SlotVal.malformed
      else if j = 2 then SlotVal.ent entA1
      else SlotVal.missing }

/-- Witness for C8: on `malformedKV` the undecodable slot `1` reads as
`null`, and both scanners return on it exactly what they return when
slot `1` is simply absent. -/
theorem scanners_treat_malformed_as_missing_witness :
    getSlot malformedKV.slot 1 = none ∧
    (GetLastPrefixedCounterValue (fun _ => true) malformedKV).1 =
      (GetLastPrefixedCounterValue (fun _ => true) (demalform malformedKV)).1 ∧
    (GetLastPrefixedCounterSet (fun _ => true) malformedKV).1 =
      (GetLastPrefixedCounterSet (fun _ => true) (demalform malformedKV)).1 :=
  ⟨(scanners_treat_malformed_as_missing (fun _ => true) malformedKV).1 1 rfl,
   (scanners_treat_malformed_as_missing (fun _ => true) malformedKV).2.1,
   (scanners_treat_malformed_as_missing (fun _ => true) malformedKV).2.2⟩

/-! ### The collect scan never returns null -/

/-- C9. `GetLastPrefixedCounterSet`, despite its declared return type
`T[] | null`, always returns the (possibly empty) collected array: on
an empty stream (no counter key), on a missing or undecodable newest
slot, and on a non-matching newest entry it returns `some []`, so a
caller that iterates the result without a null check never
dereferences `null`. -/
theorem getLastPrefixedCounterSet_never_null (p : NLLog → Bool) (db : KV) :
    (GetLastPrefixedCounterSet p db).1 = some (GetLastPrefixedCounterSetList p db).1 ∧
    (db.counter = none → (GetLastPrefixedCounterSet p db).1 = some []) ∧
    (∀ v : Int, db.counter = some v → getSlot db.slot (v - 1) = none →
      (GetLastPrefixedCounterSet p db).1 = some []) ∧
    (∀ (v : Int) (e : NLLog), db.counter = some v → getSlot db.slot (v - 1) = some e →
      p e = false → (GetLastPrefixedCounterSet p db).1 = some []) := by
  refine ⟨rfl, ?_, ?_, ?_⟩
  · intro h
    simp [GetLastPrefixedCounterSet, GetLastPrefixedCounterSetList,
      PrefixedCounterValue, h, collectFrom]
  · intro v hv hslot
    simp only [GetLastPrefixedCounterSet, GetLastPrefixedCounterSetList, Option.some.injEq]
    rw [pcv_slot_eq, pcv_fst_eq, hv]
    cases hn : (v - 1).toNat with
    | zero => simp [Option.getD_some, hn, collectFrom]
    | succ k =>
      have hk : ((k : Int) + 1) = v - 1 := by omega
      simp only [Option.getD_some, hn, collectFrom]
      rw [show (((k + 1 : Nat) : Int)) = (k : Int) + 1 by push_cast; ring, hk, hslot]
  · intro v e hv hslot hp
    simp only [GetLastPrefixedCounterSet, GetLastPrefixedCounterSetList, Option.some.injEq]
    rw [pcv_slot_eq, pcv_fst_eq, hv]
    cases hn : (v - 1).toNat with
    | zero => simp [Option.getD_some, hn, collectFrom]
    | succ k =>
      have hk : ((k : Int) + 1) = v - 1 := by omega
      simp only [Option.getD_some, hn, collectFrom]
      rw [show (((k + 1 : Nat) : Int)) = (k : Int) + 1 by push_cast; ring, hk, hslot]
      simp [hp]

/-- A stream whose newest slot (counter `5`, so slot `4`) is missing. -/
def gapKV : KV :=
  { counter := some 5,
    slot := fun j =>
      if j = 1 then SlotVal.ent entA1
      else if j = 2 then SlotVal.ent entB2
      else if j = 3 then SlotVal.ent entA3
      else SlotVal.missing }

/-- Witness for C9: the empty stream, a stream with a missing newest
slot, and a stream whose newest entry fails the predicate all yield
`some []`, never `none`. -/
theorem getLastPrefixedCounterSet_never_null_witness :
    (GetLastPrefixedCounterSet (fun _ => true) emptyKV).1 = some [] ∧
    (GetLastPrefixedCounterSet (fun _ => true) gapKV).1 = some [] ∧
    (GetLastPrefixedCounterSet (fun v => decide (10800000 < v.timestamp)) scenarioKV).1 =
      some [] :=
  ⟨(getLastPrefixedCounterSet_never_null (fun _ => true) emptyKV).2.1 rfl,
   (getLastPrefixedCounterSet_never_null (fun _ => true) gapKV).2.2.1 5 rfl rfl,
   (getLastPrefixedCounterSet_never_null
      (fun v => decide (10800000 < v.timestamp)) scenarioKV).2.2.2 4 entA3 rfl rfl (by decide)⟩

/-! ### Duration boundaries come from the raw collected sequence -/

/-- The duration boundary of each position of the newest-first list,
taken from the raw sequence: the timestamp of the next raw entry
(whatever its intent), and `now` for the last position. -/
def rawBoundaries (now : Int) (log : List NLLog) : List Int :=
  log.tail.map (fun e => e.timestamp) ++ [now]

/-- The per-entry contributions of the tally: activity-switch entries
contribute `(boundary - timestamp) / MSInHour` against their activity
label, where the boundary is the timestamp of the raw neighbour; entries of
any other intent contribute nothing. -/
def switchContribs (now : Int) (log : List NLLog) : List (Option Activity × ℚ) :=
  (log.zip (rawBoundaries now log)).filterMap fun x =>
    if x.1.meta.intent = NLIntent.recordActivitySwitch then
      some (x.1.meta.activity, ((x.2 - x.1.timestamp : Int) : ℚ) / (MSInHour : ℚ))
    else none

/-- Adding one contribution into the summary map. -/
def applyContrib (s : ActivitySummary) (c : Option Activity × ℚ) : ActivitySummary :=
  summarySet s c.1 (s c.1 + c.2)

/-- The tally loop is the fold of the per-entry contributions. -/
theorem tallyAux_eq_foldl (now : Int) (log : List NLLog) :
    ∀ s : ActivitySummary, tallyAux now log s = (switchContribs now log).foldl applyContrib s := by
  induction log with
  | nil => intro s; rfl
  | cons e tail ih =>
    intro s
    cases tail with
    | nil =>
      cases hi : e.meta.intent <;>
        simp [tallyAux, switchContribs, rawBoundaries, applyContrib, hi]
    | cons f rest =>
      have hz : switchContribs now (e :: f :: rest) =
          (if e.meta.intent = NLIntent.recordActivitySwitch then
            [(e.meta.activity, ((f.timestamp - e.timestamp : Int) : ℚ) / (MSInHour : ℚ))]
          else []) ++ switchContribs now (f :: rest) := by
        cases hi : e.meta.intent <;>
          simp [switchContribs, rawBoundaries, hi]
      cases hi : e.meta.intent <;>
        simp [tallyAux, hz, hi, applyContrib, ih]

/-- C10. The duration boundary the aggregator uses for each retained
activity-switch entry is the timestamp of the adjacent entry of the
*raw* collected sequence (`now` at the end of the list), not of the
filtered switch-only subsequence: the summary is the fold of
`switchContribs`, in which a non-switch entry contributes no time to
any category (it is dropped by the `filterMap`) while its timestamp
still appears — via `rawBoundaries`, which reads the raw tail with no
intent filtering — as the boundary of its neighbour. -/
theorem getActivitySummaryForDay_raw_adjacent (now t0 : Int) (db : KV) :
    (GetActivitySummaryForDay now t0 db).1 =
      (switchContribs now
        (GetLastPrefixedCounterSetList (fun v => decide (t0 < v.timestamp)) db).1).foldl
        applyContrib emptySummary := by
  simp [GetActivitySummaryForDay, tallyAux_eq_foldl]
